import Mathlib

/-!
Verification of the LightRAG access-control core
(`lightrag/api/access_control.py`): permission model, share entries,
metadata normalization, the accessible-document resolver, and the
entity-level propagation filter.

The embedding mirrors the Python source.  Raw metadata payloads are
modelled by `PyVal` (the JSON-ish value shapes the normalizers are
documented to accept: absent/None, strings, lists, and string-keyed
mappings).  The Python standard-library call `json.loads` is external to
the repository and is modelled as an explicit parameter
`jp : String → Option PyVal` (`none` models a `JSONDecodeError`).
Python string builtins (`strip`, `lower`, `split`, substring `in`) are
re-implemented over character lists so that every definition reduces in
the kernel.
-/

/-- Python-ish raw value: the payload shapes accepted by the metadata
normalizers (`None`, `str`, `list`, `dict` with string keys). -/
inductive PyVal where
  | none
  | str (s : String)
  | list (xs : List PyVal)
  | dict (xs : List (String × PyVal))

/-- Python truthiness for `PyVal` (`bool(v)`). -/
def pyTruthy : PyVal → Bool
  | PyVal.none => false
  | PyVal.str s => s ≠ ""
  | PyVal.list xs => !xs.isEmpty
  | PyVal.dict xs => !xs.isEmpty

/-- The guard `raw is None or raw == ""` used by both normalizers. -/
def isNoneOrEmptyStr : PyVal → Bool
  | PyVal.none => true
  | PyVal.str s => s == ""
  | _ => false

/-- ASCII apostrophe, written as a character escape. -/
def squoteChar : Char := '\x27'

/-- Wrap a string in single quotes, as Python `repr` does for strings. -/
def squote (s : String) : String :=
  String.mk (squoteChar :: (s.toList ++ [squoteChar]))

mutual

/-- Python `repr` of a raw value (best effort; only its totality matters
to the claims — container reprs never parse as share entries). -/
def pyRepr : PyVal → String
  | PyVal.none => "None"
  | PyVal.str s => squote s
  | PyVal.list xs => "[" ++ pyReprList xs ++ "]"
  | PyVal.dict xs => "\x7b" ++ pyReprDict xs ++ "\x7d"

/-- Comma-joined reprs of list elements. -/
def pyReprList : List PyVal → String
  | [] => ""
  | [x] => pyRepr x
  | x :: xs => pyRepr x ++ ", " ++ pyReprList xs

/-- Comma-joined reprs of dict items. -/
def pyReprDict : List (String × PyVal) → String
  | [] => ""
  | [kv] => squote kv.1 ++ ": " ++ pyRepr kv.2
  | kv :: xs => squote kv.1 ++ ": " ++ pyRepr kv.2 ++ ", " ++ pyReprDict xs

end

/-- Python `str(v)`: identity on strings, `"None"` for `None`, `repr`
for containers. -/
def pyStr : PyVal → String
  | PyVal.none => "None"
  | PyVal.str s => s
  | v => pyRepr v

/-- Python `dict.get(key, default)` over an association list. -/
def dictGet (d : List (String × PyVal)) (key : String) (dflt : PyVal) : PyVal :=
  match d.find? (fun kv => kv.1 == key) with
  | some kv => kv.2
  | Option.none => dflt

/-- Python whitespace recognized by `str.strip()`. -/
def isPyWs (c : Char) : Bool :=
  c == ' ' || c == '\t' || c == '\n' || c == '\r' || c == '\x0b' || c == '\x0c'

/-- Python `str.strip()`. -/
def py_strip (s : String) : String :=
  String.mk (((s.toList.dropWhile isPyWs).reverse.dropWhile isPyWs).reverse)

/-- Python `str.lower()` (ASCII case folding). -/
def py_lower (s : String) : String :=
  String.mk (s.toList.map Char.toLower)

/-- Does `pat` occur as a prefix of `s` (character lists)? -/
def isPrefixList : List Char → List Char → Bool
  | [], _ => true
  | _ :: _, [] => false
  | a :: as, b :: bs => a == b && isPrefixList as bs

/-- Find the first occurrence of `sep` in `s`: returns the characters
before it and the characters after it. -/
def findSplit (sep : List Char) : List Char → Option (List Char × List Char)
  | [] => Option.none
  | c :: rest =>
      if isPrefixList sep (c :: rest) then some ([], (c :: rest).drop sep.length)
      else
        match findSplit sep rest with
        | some pq => some (c :: pq.1, pq.2)
        | Option.none => Option.none

/-- Fuelled worker for `py_split` (each step strictly shrinks the
remainder, so `length + 1` fuel always suffices). -/
def splitFuel (sep : List Char) : Nat → List Char → List (List Char)
  | 0, s => [s]
  | fuel + 1, s =>
      match findSplit sep s with
      | Option.none => [s]
      | some pq => pq.1 :: splitFuel sep fuel pq.2

/-- Python `s.split(sep)` for a non-empty separator. -/
def py_split (s sep : String) : List String :=
  if sep = "" then [s]
  else (splitFuel sep.toList (s.toList.length + 1) s.toList).map (fun cs => String.mk cs)

/-- Python `s.split(sep, 1)`: the head and, when the separator occurs,
the remainder. -/
def py_split1 (s sep : String) : String × Option String :=
  if sep = "" then (s, Option.none)
  else
    match findSplit sep.toList s.toList with
    | Option.none => (s, Option.none)
    | some pq => (String.mk pq.1, some (String.mk pq.2))

/-- Python substring test `needle in hay`. -/
def py_in (needle hay : String) : Bool :=
  needle == "" || (findSplit needle.toList hay.toList).isSome

/-- Permission levels extracted from share metadata
(`Permission` in the source). -/
inductive Permission where
  | view
  | edit
deriving DecidableEq, Repr

/-- `Permission.value` (the enum's string payload). -/
def Permission.value : Permission → String
  | Permission.view => "view"
  | Permission.edit => "edit"

/-- `Permission.from_value`: case-insensitive parse; unknown tokens are a
`ValueError`, modelled as `Except.error`. -/
def Permission.from_value (s : String) : Except Unit Permission :=
  if py_lower s = "view" then Except.ok Permission.view
  else if py_lower s = "edit" then Except.ok Permission.edit
  else Except.error ()

/-- A single share rule in the metadata (`ShareEntry` in the source). -/
structure ShareEntry where
  target_type : String
  permission : Permission
  identifier : String
deriving DecidableEq, Repr

/-- Wildcard test `identifier.lower() in ("all", "*")`. -/
def wildcardTok (s : String) : Bool :=
  py_lower s == "all" || py_lower s == "*"

/-- Python truthiness of an optional string (`None` and `""` are falsy). -/
def strTruthy : Option String → Bool
  | Option.none => false
  | some s => s ≠ ""

/-- `ShareEntry.matches_user`: does this entry target the given user or
any of their roles (wildcard-aware)? -/
def ShareEntry.matches_user (e : ShareEntry) (user_id : Option String)
    (user_roles : List String) : Bool :=
  if e.target_type == "user" && strTruthy user_id then
    if wildcardTok e.identifier then true
    else user_id == some e.identifier
  else if e.target_type == "role" then
    if wildcardTok e.identifier then true
    else user_roles.contains e.identifier
  else false

/-- `ShareEntry.allows`: does this entry satisfy the requested
permission level (edit implies view)? -/
def ShareEntry.allows (e : ShareEntry) (required : Permission) : Bool :=
  if e.permission == Permission.edit then true
  else e.permission == required

/-- `ShareEntry.as_string`: canonical textual encoding. -/
def ShareEntry.as_string (e : ShareEntry) : String :=
  e.target_type ++ ":" ++ e.permission.value ++ ":" ++ e.identifier

/-- The distinct `ValueError` sites of `parse_share_entry`. -/
inductive ShareParseError where
  | badShape
  | badTarget
  | badPermission
  | emptyIdentifier
deriving DecidableEq, Repr

/-- `parse_share_entry`: split on every colon, strip parts, drop empty
parts, then require exactly three fields. -/
def parse_share_entry (entry : String) : Except ShareParseError ShareEntry :=
  match ((py_split entry ":").map py_strip).filter (fun p => p ≠ "") with
  | [t, p, i] =>
      if py_lower t ≠ "user" ∧ py_lower t ≠ "role" then
        Except.error ShareParseError.badTarget
      else
        match Permission.from_value p with
        | Except.error _ => Except.error ShareParseError.badPermission
        | Except.ok perm =>
            if i = "" then Except.error ShareParseError.emptyIdentifier
            else Except.ok ⟨py_lower t, perm, i⟩
  | _ => Except.error ShareParseError.badShape

/-- `{name, value}` tag record (`normalize_tag_items` output shape). -/
structure Tag where
  name : String
  value : String
deriving DecidableEq, Repr

/-- The inner `_coerce_entry` of `normalize_tag_items`: coerce one raw
item to a tag, `none` when it is rejected. -/
def coerce_tag_entry : PyVal → Option Tag
  | PyVal.none => Option.none
  | PyVal.dict d =>
      let name := py_strip (pyStr (dictGet d "name" (PyVal.str "")))
      let value := py_strip (pyStr (dictGet d "value" (PyVal.str "")))
      if name = "" then Option.none else some ⟨name, value⟩
  | PyVal.str s =>
      let parts := py_split1 s ":"
      let name := py_strip parts.1
      let value :=
        match parts.2 with
        | some rest => py_strip rest
        | Option.none => ""
      if name = "" then Option.none else some ⟨name, value⟩
  | PyVal.list _ => Option.none

/-- The `raw_iterable` computed by `normalize_tag_items`: strings are
JSON-parsed (falling back to comma splitting), dicts become one
`name`/`value` record per item, lists iterate their elements. -/
def tag_raw_iterable (jp : String → Option PyVal) : PyVal → List PyVal
  | PyVal.str s =>
      let raw_str := py_strip s
      if raw_str = "" then []
      else
        match jp raw_str with
        | some (PyVal.list xs) => xs
        | some v => [v]
        | Option.none =>
            ((py_split raw_str ",").map py_strip |>.filter (fun x => x ≠ "")).map PyVal.str
  | PyVal.dict d => d.map (fun kv => PyVal.dict [("name", PyVal.str kv.1), ("value", kv.2)])
  | PyVal.list xs => xs
  | PyVal.none => []

/-- The `seen`-set deduplication loop shared (verbatim, three times) by
`normalize_tag_items`, `normalize_share_items` and
`metadata_share_entries`: keep the first item carrying each key. -/
def dedupKeepFirstAux {α κ : Type} [DecidableEq κ] (key : α → κ)
    (seen : List κ) : List α → List α
  | [] => []
  | x :: xs =>
      if key x ∈ seen then dedupKeepFirstAux key seen xs
      else x :: dedupKeepFirstAux key (key x :: seen) xs

/-- Deduplicate by key, preserving first-seen order. -/
def dedupKeepFirst {α κ : Type} [DecidableEq κ] (key : α → κ) (l : List α) : List α :=
  dedupKeepFirstAux key [] l

/-- `normalize_tag_items`: normalize a raw tag payload into an ordered,
deduplicated list of tags; malformed items are dropped. -/
def normalize_tag_items (jp : String → Option PyVal) (raw_tags : PyVal) : List Tag :=
  if isNoneOrEmptyStr raw_tags then []
  else dedupKeepFirst (fun t => (t.name, t.value))
    ((tag_raw_iterable jp raw_tags).filterMap coerce_tag_entry)

/-- Per-item processing of `normalize_share_items`: structured dict
items build a `ShareEntry` directly (only the permission token can fail
there); every other item is stringified and fed to
`parse_share_entry`, whose errors are swallowed. -/
def share_item_to_entry (item : PyVal) : Option ShareEntry :=
  match item with
  | PyVal.dict d =>
      match Permission.from_value (pyStr (dictGet d "permission" (PyVal.str "view"))) with
      | Except.error _ => Option.none
      | Except.ok perm =>
          some ⟨py_lower (py_strip (pyStr (dictGet d "target_type" (PyVal.str "")))),
                perm,
                py_strip (pyStr (dictGet d "identifier" (PyVal.str "")))⟩
  | v =>
      match parse_share_entry (pyStr v) with
      | Except.ok e => some e
      | Except.error _ => Option.none

/-- Per-item keep rule of `normalize_share_items`: the coerced entry, if
it exists and its identifier is non-empty (`if entry.identifier`). -/
def share_item_kept (item : PyVal) : Option ShareEntry :=
  match share_item_to_entry item with
  | some e => if e.identifier = "" then Option.none else some e
  | Option.none => Option.none

/-- The `raw_iterable` computed by `normalize_share_items`: dicts are
wrapped into a singleton list, strings are JSON-parsed (falling back to
comma splitting), lists iterate their elements. -/
def share_raw_iterable (jp : String → Option PyVal) : PyVal → List PyVal
  | PyVal.dict d => [PyVal.dict d]
  | PyVal.str s =>
      let raw_str := py_strip s
      if raw_str = "" then []
      else
        match jp raw_str with
        | some (PyVal.list xs) => xs
        | some v => [v]
        | Option.none =>
            ((py_split raw_str ",").map py_strip |>.filter (fun x => x ≠ "")).map PyVal.str
  | PyVal.list xs => xs
  | PyVal.none => []

/-- Key used to deduplicate share entries:
`(target_type, permission.value, identifier)`. -/
def shareKey (e : ShareEntry) : String × String × String :=
  (e.target_type, e.permission.value, e.identifier)

/-- `normalize_share_items`: normalize a raw share payload into an
ordered, deduplicated list of `ShareEntry`; malformed items are
dropped.  (The source's pass-through branches for inputs that are
already `ShareEntry` objects concern internal reuse, not raw payloads,
and fall outside the `PyVal` universe.) -/
def normalize_share_items (jp : String → Option PyVal) (raw_share : PyVal) : List ShareEntry :=
  if isNoneOrEmptyStr raw_share then []
  else dedupKeepFirst shareKey ((share_raw_iterable jp raw_share).filterMap share_item_kept)

/-- The legacy `access_control` mapping shape
(`{owner, viewers[], editors[]}`). -/
structure AccessControlDict where
  owner : Option String := Option.none
  viewers : List String := []
  editors : List String := []

/-- Document metadata: the keys read by the access-control core, at the
types the spec's DocumentRecord assigns them (`tags` and the share keys
stay raw, as the source normalizes them on every read). -/
structure Metadata where
  project_id : Option String := Option.none
  owner : Option String := Option.none
  user_id : Option String := Option.none
  uploaded_by : Option String := Option.none
  tags : PyVal := PyVal.list []
  share_parsed : PyVal := PyVal.none
  share : PyVal := PyVal.none
  access_control : Option AccessControlDict := Option.none
  allowed_roles : List String := []
  is_public : Bool := false

/-- `metadata_owner`: the `owner` field, falling back to the legacy
`user_id` field; empty strings and absence resolve to no owner. -/
def metadata_owner (metadata : Metadata) : Option String :=
  let owner := if strTruthy metadata.owner then metadata.owner else metadata.user_id
  if strTruthy owner then owner else Option.none

/-- `metadata_tags`: normalized tags of a metadata record. -/
def metadata_tags (jp : String → Option PyVal) (metadata : Metadata) : List Tag :=
  normalize_tag_items jp metadata.tags

/-- The truthiness-guarded edit entry for `access_control.owner`. -/
def legacy_owner_entries : Option String → List ShareEntry
  | some o => if o ≠ "" then [⟨"user", Permission.edit, o⟩] else []
  | Option.none => []

/-- The share entries contributed by the legacy `access_control`
mapping: `owner` → one edit entry, each viewer → a view entry, each
editor → an edit entry. -/
def legacy_ac_entries : Option AccessControlDict → List ShareEntry
  | Option.none => []
  | some ac =>
      legacy_owner_entries ac.owner
      ++ ac.viewers.map (fun v => ⟨"user", Permission.view, v⟩)
      ++ ac.editors.map (fun v => ⟨"user", Permission.edit, v⟩)

/-- `metadata_share_entries`: entries normalized from the `share_parsed`
and `share` keys (each only when truthy), merged with the legacy
`access_control` entries, deduplicated by the triple key. -/
def metadata_share_entries (jp : String → Option PyVal) (metadata : Metadata) : List ShareEntry :=
  dedupKeepFirst shareKey
    ((if pyTruthy metadata.share_parsed then normalize_share_items jp metadata.share_parsed else [])
      ++ (if pyTruthy metadata.share then normalize_share_items jp metadata.share else [])
      ++ legacy_ac_entries metadata.access_control)

/-- Caller-supplied query-time filters (`AccessFilters`). -/
structure AccessFilters where
  project_id : Option String := Option.none
  owner : Option String := Option.none
  tags : List Tag := []
  filename : Option String := Option.none

/-- `metadata_matches_filters`: project, owner and tag constraints
(AND semantics over the tag list; filename is handled separately). -/
def metadata_matches_filters (jp : String → Option PyVal) (metadata : Metadata)
    (filters : AccessFilters) : Bool :=
  if strTruthy filters.project_id && !(metadata.project_id == filters.project_id) then false
  else if strTruthy filters.owner && !(metadata_owner metadata == filters.owner) then false
  else filters.tags.all (fun tf => (metadata_tags jp metadata).any (fun dt => dt == tf))

/-- Caller identity as consumed by the resolver (`CurrentUser` fields
read by `get_user_accessible_files`). -/
structure CurrentUser where
  user_id : Option String := Option.none
  roles : List String := []
  is_authenticated : Bool := false

/-- Modelled from the spec: document processing states
(`DocStatus` lives in `lightrag.base`, outside this repository's core
sources); only `processed` records participate in resolution. -/
inductive DocStatus where
  | pending
  | processing
  | processed
  | failed
deriving DecidableEq, Repr

/-- Modelled from the spec: a document status record
(`DocProcessingStatus` lives in `lightrag.base`); the resolver reads
its state, `file_path`, and `metadata`. -/
structure DocProcessingStatus where
  status : DocStatus
  file_path : Option String := Option.none
  metadata : Option Metadata := Option.none

/-- `doc_file_path`: extract `file_path` from a status record. -/
def doc_file_path (doc_status : DocProcessingStatus) : Option String :=
  doc_status.file_path

/-- The filename gate of `get_user_accessible_files`: when
`filters.filename` is truthy, require a truthy document `file_path`
containing it as a substring. -/
def filename_gate (filters : AccessFilters) (doc_status : DocProcessingStatus) : Bool :=
  match filters.filename with
  | Option.none => true
  | some fn =>
      if fn = "" then true
      else
        match doc_file_path doc_status with
        | Option.none => false
        | some fp => fp ≠ "" && py_in fn fp

/-- `is_owner`: resolved owner and user id both truthy and equal. -/
def is_owner_check (current_user : CurrentUser) (metadata : Metadata) : Bool :=
  strTruthy (metadata_owner metadata) && strTruthy current_user.user_id
    && (metadata_owner metadata == current_user.user_id)

/-- `is_uploader`: `metadata.uploaded_by` and user id both truthy and
equal. -/
def is_uploader_check (current_user : CurrentUser) (metadata : Metadata) : Bool :=
  strTruthy metadata.uploaded_by && strTruthy current_user.user_id
    && (metadata.uploaded_by == current_user.user_id)

/-- `has_role_access`: the caller's role set intersects the legacy
`allowed_roles` list. -/
def has_role_access_check (current_user : CurrentUser) (metadata : Metadata) : Bool :=
  metadata.allowed_roles.any (fun role => current_user.roles.contains role)

/-- The authenticated-path decision of `get_user_accessible_files`: the
four grant checks (owner/uploader, share, legacy role list, public)
combined with OR. -/
def auth_has_access (jp : String → Option PyVal) (current_user : CurrentUser)
    (include_shared include_public : Bool) (required_permission : Permission)
    (metadata : Metadata) : Bool :=
  (((is_owner_check current_user metadata || is_uploader_check current_user metadata)
    || (include_shared && !(metadata_share_entries jp metadata).isEmpty
        && (metadata_share_entries jp metadata).any (fun e =>
              e.matches_user current_user.user_id current_user.roles
                && e.allows required_permission)))
    || (has_role_access_check current_user metadata && required_permission == Permission.view))
    || (metadata.is_public && include_public && required_permission == Permission.view)

/-- The per-document loop body of `get_user_accessible_files`: filter
gate, filename gate, then the unauthenticated (public only) or
authenticated decision. -/
def doc_accessible (jp : String → Option PyVal) (current_user : CurrentUser)
    (include_shared include_public : Bool) (required_permission : Permission)
    (filters : AccessFilters) (doc_status : DocProcessingStatus) : Bool :=
  metadata_matches_filters jp (doc_status.metadata.getD {}) filters
    && filename_gate filters doc_status
    && (if current_user.is_authenticated then
          auth_has_access jp current_user include_shared include_public required_permission
            (doc_status.metadata.getD {})
        else (doc_status.metadata.getD {}).is_public && include_public)

/-- `filters = filters or AccessFilters(project_id=project_id)`. -/
def resolve_filters (project_id : Option String) (filters : Option AccessFilters) : AccessFilters :=
  match filters with
  | some f => f
  | Option.none => { project_id := project_id }

/-- `doc_status_storage.get_docs_by_status`: the storage snapshot
restricted to one processing state (insertion-ordered mapping,
modelled as an association list). -/
def get_docs_by_status (storage : List (String × DocProcessingStatus))
    (status : DocStatus) : List (String × DocProcessingStatus) :=
  storage.filter (fun p => p.2.status == status)

/-- `get_user_accessible_files`: the accessible-document resolver —
all `PROCESSED` documents that pass the filter gates and one of the
grant paths. -/
def get_user_accessible_files (jp : String → Option PyVal)
    (storage : List (String × DocProcessingStatus)) (current_user : CurrentUser)
    (project_id : Option String) (include_shared include_public : Bool)
    (required_permission : Permission) (filters : Option AccessFilters) :
    List (String × DocProcessingStatus) :=
  (get_docs_by_status storage DocStatus.processed).filter (fun p =>
    doc_accessible jp current_user include_shared include_public required_permission
      (resolve_filters project_id filters) p.2)

/-- Modelled from the spec: the reserved provenance separator
(`GRAPH_FIELD_SEP` lives in `lightrag.constants`; the source's doc
comment records its value as `"<SEP>"`). -/
def GRAPH_FIELD_SEP : String := "<SEP>"

/-- A graph entity/relation record as consumed by
`filter_entities_by_access`: only its `file_path` field is read
(`entity.get("file_path", "")`). -/
structure Entity where
  file_path : String := ""
deriving DecidableEq, Repr

/-- `filter_entities_by_access`: keep an entity iff any of its
`GRAPH_FIELD_SEP`-separated provenance segments contains the truthy
`file_path` of some accessible document as a substring. -/
def filter_entities_by_access (entities : List Entity)
    (accessible_files : List (String × DocProcessingStatus)) : List Entity :=
  entities.filter (fun entity =>
    accessible_files.any (fun p =>
      match doc_file_path p.2 with
      | Option.none => false
      | some fp =>
          fp ≠ "" && (py_split entity.file_path GRAPH_FIELD_SEP).any (fun seg => py_in fp seg)))

/-- A fixed JSON-parse instance (every string fails to parse, as with
non-JSON text); used to instantiate witnesses. -/
def jpNone : String → Option PyVal := fun _ => Option.none

/-- Sample metadata: owned by alice, not public. -/
def mdOwnedByAlice : Metadata := { owner := some "alice" }

/-- Sample processed document owned by alice. -/
def docOwnedByAlice : DocProcessingStatus :=
  { status := DocStatus.processed, file_path := some "docs/report.pdf",
    metadata := some mdOwnedByAlice }

/-- Sample metadata: private but carrying share and role grants. -/
def mdPrivateShared : Metadata :=
  { owner := some "alice", share := PyVal.str "user:view:bob", allowed_roles := ["staff"] }

/-- Sample processed document with share and role grants, not public. -/
def docPrivateShared : DocProcessingStatus :=
  { status := DocStatus.processed, file_path := some "docs/private.pdf",
    metadata := some mdPrivateShared }

/-- Sample metadata: public flag is the only possible grant for
non-owners. -/
def mdPublicOnly : Metadata := { owner := some "alice", is_public := true }

/-- Sample processed public-only document. -/
def docPublicOnly : DocProcessingStatus :=
  { status := DocStatus.processed, file_path := some "docs/pub.pdf",
    metadata := some mdPublicOnly }

/-- Sample metadata: tagged dept=sales and otherwise fully grantable
(owned, public, wildcard edit share). -/
def mdDeptSales : Metadata :=
  { owner := some "alice",
    tags := PyVal.list [PyVal.dict [("name", PyVal.str "dept"), ("value", PyVal.str "sales")]],
    share := PyVal.str "user:edit:*",
    is_public := true }

/-- Sample processed document tagged dept=sales. -/
def docDeptSales : DocProcessingStatus :=
  { status := DocStatus.processed, file_path := some "docs/sales.pdf",
    metadata := some mdDeptSales }

/-- Sample authenticated caller alice. -/
def aliceUser : CurrentUser :=
  { user_id := some "alice", roles := ["user"], is_authenticated := true }

/-- Sample authenticated caller bob. -/
def bobUser : CurrentUser :=
  { user_id := some "bob", roles := ["user"], is_authenticated := true }

/-- Sample unauthenticated caller. -/
def guestUser : CurrentUser := { is_authenticated := false }

theorem dedupKeepFirstAux_sublist {α κ : Type} [DecidableEq κ] (key : α → κ)
    (seen : List κ) (l : List α) : List.Sublist (dedupKeepFirstAux key seen l) l := by
  induction l generalizing seen with
  | nil => simp [dedupKeepFirstAux]
  | cons x xs ih =>
      rw [dedupKeepFirstAux]
      split
      · exact (ih seen).cons x
      · exact (ih (key x :: seen)).cons₂ x

theorem mem_of_mem_dedupKeepFirstAux {α κ : Type} [DecidableEq κ] {key : α → κ}
    {seen : List κ} {l : List α} {x : α} (h : x ∈ dedupKeepFirstAux key seen l) :
    x ∈ l ∧ key x ∉ seen := by
  induction l generalizing seen with
  | nil => simp [dedupKeepFirstAux] at h
  | cons y ys ih =>
      rw [dedupKeepFirstAux] at h
      split at h
      · have := ih h
        exact ⟨List.mem_cons_of_mem y this.1, this.2⟩
      · rcases List.mem_cons.mp h with rfl | hx
        · exact ⟨List.mem_cons_self x ys, by assumption⟩
        · have := ih hx
          refine ⟨List.mem_cons_of_mem y this.1, fun hc => this.2 ?_⟩
          exact List.mem_cons_of_mem _ hc

theorem exists_key_mem_dedupKeepFirstAux {α κ : Type} [DecidableEq κ] {key : α → κ}
    {seen : List κ} {l : List α} {k : κ} (hk : k ∉ seen) (h : ∃ x ∈ l, key x = k) :
    ∃ x ∈ dedupKeepFirstAux key seen l, key x = k := by
  induction l generalizing seen with
  | nil => simp at h
  | cons y ys ih =>
      rw [dedupKeepFirstAux]
      rcases h with ⟨z, hz, hkz⟩
      split
      · rcases List.mem_cons.mp hz with rfl | hz'
        · exact absurd (hkz ▸ ‹key z ∈ seen›) hk
        · exact ih hk ⟨z, hz', hkz⟩
      · by_cases hky : key y = k
        · exact ⟨y, List.mem_cons_self y _, hky⟩
        · rcases List.mem_cons.mp hz with rfl | hz'
          · exact absurd hkz hky
          · have hk' : k ∉ key y :: seen := by
              intro hc
              rcases List.mem_cons.mp hc with rfl | hc'
              · exact hky rfl
              · exact hk hc'
            rcases ih hk' ⟨z, hz', hkz⟩ with ⟨w, hw, hkw⟩
            exact ⟨w, List.mem_cons_of_mem y hw, hkw⟩

theorem pairwise_keys_dedupKeepFirstAux {α κ : Type} [DecidableEq κ] (key : α → κ)
    (seen : List κ) (l : List α) :
    (dedupKeepFirstAux key seen l).Pairwise (fun a b => key a ≠ key b) := by
  induction l generalizing seen with
  | nil => simp [dedupKeepFirstAux]
  | cons x xs ih =>
      rw [dedupKeepFirstAux]
      split
      · exact ih seen
      · refine List.Pairwise.cons ?_ (ih (key x :: seen))
        intro b hb hc
        have := (mem_of_mem_dedupKeepFirstAux hb).2
        exact this (hc ▸ List.mem_cons_self (key x) seen)

theorem dedupKeepFirst_sublist {α κ : Type} [DecidableEq κ] (key : α → κ) (l : List α) :
    List.Sublist (dedupKeepFirst key l) l :=
  dedupKeepFirstAux_sublist key [] l

theorem pairwise_keys_dedupKeepFirst {α κ : Type} [DecidableEq κ] (key : α → κ) (l : List α) :
    (dedupKeepFirst key l).Pairwise (fun a b => key a ≠ key b) :=
  pairwise_keys_dedupKeepFirstAux key [] l

theorem exists_key_mem_dedupKeepFirst {α κ : Type} [DecidableEq κ] (key : α → κ)
    {l : List α} {k : κ} (h : ∃ x ∈ l, key x = k) :
    ∃ x ∈ dedupKeepFirst key l, key x = k :=
  exists_key_mem_dedupKeepFirstAux (by simp) h

/-- The triple key determines a share entry. -/
theorem shareKey_inj {a b : ShareEntry} (h : shareKey a = shareKey b) : a = b := by
  obtain ⟨ta, pa, ia⟩ := a
  obtain ⟨tb, pb, ib⟩ := b
  simp only [shareKey, Prod.mk.injEq] at h
  obtain ⟨h1, h2, h3⟩ := h
  subst h1
  subst h3
  cases pa <;> cases pb
  · rfl
  · exact absurd h2 (by decide)
  · exact absurd h2 (by decide)
  · rfl

/-- Membership in the resolver output, characterized. -/
theorem mem_get_user_accessible_files_iff {jp : String → Option PyVal}
    {storage : List (String × DocProcessingStatus)} {current_user : CurrentUser}
    {project_id : Option String} {include_shared include_public : Bool}
    {required_permission : Permission} {filters : Option AccessFilters}
    {p : String × DocProcessingStatus} :
    p ∈ get_user_accessible_files jp storage current_user project_id include_shared
        include_public required_permission filters ↔
      p ∈ storage ∧ p.2.status = DocStatus.processed ∧
        doc_accessible jp current_user include_shared include_public required_permission
          (resolve_filters project_id filters) p.2 = true := by
  simp [get_user_accessible_files, get_docs_by_status, List.mem_filter, and_assoc]
  tauto

/-- C6: a share entry granting edit allows both view and edit; a share
entry granting view allows view but not edit — `allows required` holds
exactly when the grant equals the requirement or the grant is edit. -/
theorem c6_allows_edit_implies_view (e : ShareEntry) :
    (e.permission = Permission.edit →
      e.allows Permission.view = true ∧ e.allows Permission.edit = true) ∧
    (e.permission = Permission.view →
      e.allows Permission.edit = false ∧ e.allows Permission.view = true) ∧
    (∀ required : Permission,
      e.allows required = (e.permission == required || e.permission == Permission.edit)) := by
  obtain ⟨t, p, i⟩ := e
  refine ⟨fun hp => ?_, fun hp => ?_, fun required => ?_⟩
  · subst hp
    exact ⟨rfl, rfl⟩
  · subst hp
    exact ⟨rfl, rfl⟩
  · cases p <;> cases required <;> rfl

/-- Closed instance of C6 at concrete entries. -/
theorem c6_allows_edit_implies_view_witness :
    ShareEntry.allows ⟨"user", Permission.edit, "x"⟩ Permission.view = true ∧
    ShareEntry.allows ⟨"user", Permission.view, "x"⟩ Permission.edit = false :=
  ⟨((c6_allows_edit_implies_view ⟨"user", Permission.edit, "x"⟩).1 rfl).1,
   ((c6_allows_edit_implies_view ⟨"user", Permission.view, "x"⟩).2.1 rfl).1⟩

set_option maxRecDepth 4000 in
/-- C5: wildcard identifiers (`all`/`*`, case-insensitive) make a
user-kind entry match every non-empty user id and a role-kind entry
match any caller with a non-empty role set; a non-wildcard user-kind
entry matches exactly on identifier equality with the (present)
caller id, a caller without a usable id never matches a user-kind
entry, and a non-wildcard role-kind entry matches exactly on role-set
membership. -/
theorem c5_matches_user_semantics (e : ShareEntry) :
    (∀ (uid : String) (roles : List String),
        e.target_type = "user" →
        (py_lower e.identifier = "all" ∨ py_lower e.identifier = "*") →
        uid ≠ "" → e.matches_user (some uid) roles = true) ∧
    (∀ (user_id : Option String) (roles : List String),
        e.target_type = "role" →
        (py_lower e.identifier = "all" ∨ py_lower e.identifier = "*") →
        roles ≠ [] → e.matches_user user_id roles = true) ∧
    (∀ (uid : String) (roles : List String),
        e.target_type = "user" → wildcardTok e.identifier = false → uid ≠ "" →
        (e.matches_user (some uid) roles = true ↔ e.identifier = uid)) ∧
    (∀ (user_id : Option String) (roles : List String),
        e.target_type = "user" → strTruthy user_id = false →
        e.matches_user user_id roles = false) ∧
    (∀ (user_id : Option String) (roles : List String),
        e.target_type = "role" → wildcardTok e.identifier = false →
        (e.matches_user user_id roles = true ↔ e.identifier ∈ roles)) := by
  refine ⟨?_, ?_, ?_, ?_, ?_⟩
  · intro uid roles ht hw hu
    have hwt : wildcardTok e.identifier = true := by
      rcases hw with h | h <;> simp [wildcardTok, h]
    simp [ShareEntry.matches_user, ht, strTruthy, hu, hwt]
  · intro user_id roles ht hw _
    have hwt : wildcardTok e.identifier = true := by
      rcases hw with h | h <;> simp [wildcardTok, h]
    simp [ShareEntry.matches_user, ht, hwt]
  · intro uid roles ht hw hu
    have hg : (e.target_type == "user" && strTruthy (some uid)) = true := by
      simp [ht, strTruthy, hu]
    simp only [ShareEntry.matches_user, hg, hw, if_true, if_false, Bool.false_eq_true]
    constructor
    · intro h
      have := beq_iff_eq.mp h
      exact Option.some.injEq .. ▸ this.symm
    · intro h
      subst h
      simp
  · intro user_id roles ht hu
    simp [ShareEntry.matches_user, ht, hu]
  · intro user_id roles ht hw
    simp [ShareEntry.matches_user, ht, hw]

/-- Closed instance of C5 at concrete entries. -/
theorem c5_matches_user_semantics_witness :
    ShareEntry.matches_user ⟨"user", Permission.view, "ALL"⟩ (some "bob") [] = true ∧
    ShareEntry.matches_user ⟨"role", Permission.edit, "*"⟩ Option.none ["admin"] = true ∧
    (ShareEntry.matches_user ⟨"user", Permission.view, "alice"⟩ (some "alice") [] = true ↔
      "alice" = "alice") ∧
    (ShareEntry.matches_user ⟨"role", Permission.view, "admin"⟩ Option.none ["admin"] = true ↔
      "admin" ∈ ["admin"]) :=
  ⟨(c5_matches_user_semantics ⟨"user", Permission.view, "ALL"⟩).1 "bob" [] rfl
      (Or.inl (by decide)) (by decide),
   (c5_matches_user_semantics ⟨"role", Permission.edit, "*"⟩).2.1 Option.none ["admin"] rfl
      (Or.inr (by decide)) (by decide),
   (c5_matches_user_semantics ⟨"user", Permission.view, "alice"⟩).2.2.1 "alice" [] rfl
      (by decide) (by decide),
   (c5_matches_user_semantics ⟨"role", Permission.view, "admin"⟩).2.2.2.2 Option.none ["admin"]
      rfl (by decide)⟩

/-- Every field surviving the strip-and-filter preprocessing of
`parse_share_entry` is non-empty. -/
theorem parse_parts_ne_empty (entry : String) :
    ∀ x ∈ ((py_split entry ":").map py_strip).filter (fun p => p ≠ ""), x ≠ "" := by
  intro x hx
  have := List.of_mem_filter hx
  simpa using this

/-- C10: `parse_share_entry` splits on every colon and discards empty
segments before the three-field check, so non-canonical inputs with
adjacent or leading/trailing colons still parse; a canonical string
whose identifier slot contains a colon yields four fields and is
rejected as a shape error; and the dedicated empty-identifier error
branch is unreachable. -/
theorem c10_parse_share_entry_segments :
    parse_share_entry "user::view:bob" =
      Except.ok ⟨"user", Permission.view, "bob"⟩ ∧
    parse_share_entry ":user:view:bob:" =
      Except.ok ⟨"user", Permission.view, "bob"⟩ ∧
    parse_share_entry "user:view:a:b" = Except.error ShareParseError.badShape ∧
    ∀ s : String, parse_share_entry s ≠ Except.error ShareParseError.emptyIdentifier := by
  refine ⟨by rfl, by rfl, by rfl, ?_⟩
  intro s h
  rw [parse_share_entry] at h
  split at h
  · rename_i t p i heq
    split at h
    · simp at h
    · split at h
      · simp at h
      · split at h
        · rename_i hi
          have hmem : i ∈ ((py_split s ":").map py_strip).filter (fun x => x ≠ "") := by
            rw [heq]
            simp
          exact parse_parts_ne_empty s i hmem hi
        · simp at h
  · simp at h

/-- C4 (amended): the normalizers return an ordered, deduplicated list
for every raw payload, and every item inside a bulk collection that
fails validation — bad target kind for string-encoded share items, bad
permission token, or empty identifier; missing or empty name for tag
items — is silently dropped rather than propagated; structured
(dict-shaped) share items are the exception the counterexample forces:
their target kind is not validated and passes through. -/
theorem c4_normalizers_total_dedup_drop (jp : String → Option PyVal) :
    (∀ raw : PyVal, (normalize_tag_items jp raw).Nodup) ∧
    (∀ raw : PyVal, ((normalize_share_items jp raw).map shareKey).Nodup) ∧
    (∀ (xs ys : List PyVal) (b : PyVal), coerce_tag_entry b = Option.none →
        normalize_tag_items jp (PyVal.list (xs ++ b :: ys)) =
          normalize_tag_items jp (PyVal.list (xs ++ ys))) ∧
    (∀ (xs ys : List PyVal) (b : PyVal), share_item_kept b = Option.none →
        normalize_share_items jp (PyVal.list (xs ++ b :: ys)) =
          normalize_share_items jp (PyVal.list (xs ++ ys))) ∧
    coerce_tag_entry (PyVal.dict [("value", PyVal.str "v")]) = Option.none ∧
    coerce_tag_entry (PyVal.dict [("name", PyVal.str "  ")]) = Option.none ∧
    share_item_kept (PyVal.str "banana:view:bob") = Option.none ∧
    share_item_kept (PyVal.str "user:admin:bob") = Option.none ∧
    share_item_kept
      (PyVal.dict [("target_type", PyVal.str "user"), ("permission", PyVal.str "view")]) =
      Option.none ∧
    share_item_kept
      (PyVal.dict [("target_type", PyVal.str "group"), ("permission", PyVal.str "view"),
        ("identifier", PyVal.str "y")]) =
      some ⟨"group", Permission.view, "y"⟩ := by
  refine ⟨?_, ?_, ?_, ?_, by rfl, by rfl, by rfl, by rfl, by rfl, by rfl⟩
  · intro raw
    rw [normalize_tag_items]
    split
    · exact List.nodup_nil
    · refine List.Pairwise.imp ?_ (pairwise_keys_dedupKeepFirst _ _)
      intro a b hk heq
      exact hk (by rw [heq])
  · intro raw
    rw [normalize_share_items]
    split
    · simp
    · rw [List.nodup_map_iff_inj_on]
      · intro a _ b _ hk
        exact shareKey_inj hk
      · refine List.Pairwise.imp ?_ (pairwise_keys_dedupKeepFirst _ _)
        intro a b hk heq
        exact hk (by rw [heq])
  · intro xs ys b hb
    simp [normalize_tag_items, isNoneOrEmptyStr, tag_raw_iterable,
      List.filterMap_append, List.filterMap_cons, hb]
  · intro xs ys b hb
    simp [normalize_share_items, isNoneOrEmptyStr, share_raw_iterable,
      List.filterMap_append, List.filterMap_cons, hb]

/-- Closed instance of C4: a malformed tag item inside a list is
dropped without affecting its neighbours. -/
theorem c4_normalizers_total_dedup_drop_witness :
    normalize_tag_items jpNone (PyVal.list [PyVal.str "a:1", PyVal.str "  ", PyVal.str "b"]) =
      normalize_tag_items jpNone (PyVal.list [PyVal.str "a:1", PyVal.str "b"]) :=
  (c4_normalizers_total_dedup_drop jpNone).2.2.1 [PyVal.str "a:1"] [PyVal.str "b"]
    (PyVal.str "  ") (by rfl)

/-- C4 counterexample: a structured share item whose target kind is
invalid (`banana`) is not dropped — `normalize_share_items` keeps it,
target kind unvalidated, refuting the claim that every bulk item with a
bad target kind is dropped. -/
theorem c4_counterexample_bad_target_kept :
    normalize_share_items jpNone
      (PyVal.list [PyVal.dict [("target_type", PyVal.str "banana"),
        ("permission", PyVal.str "view"), ("identifier", PyVal.str "x")]]) =
      [⟨"banana", Permission.view, "x"⟩] := by
  rfl

/-- C1: an unauthenticated identity never receives a PROCESSED document
whose metadata is not flagged public — regardless of include flags,
required permission, owner, uploader, share entries, or allowed roles —
and receives a public one only when `include_public` is enabled. -/
theorem c1_unauthenticated_exclusion (jp : String → Option PyVal)
    (storage : List (String × DocProcessingStatus)) (current_user : CurrentUser)
    (project_id : Option String) (include_shared include_public : Bool)
    (required_permission : Permission) (filters : Option AccessFilters)
    (doc_id : String) (doc : DocProcessingStatus)
    (hu : current_user.is_authenticated = false)
    (_hs : doc.status = DocStatus.processed) :
    ((doc.metadata.getD {}).is_public = false →
      (doc_id, doc) ∉ get_user_accessible_files jp storage current_user project_id
        include_shared include_public required_permission filters) ∧
    ((doc_id, doc) ∈ get_user_accessible_files jp storage current_user project_id
        include_shared include_public required_permission filters →
      (doc.metadata.getD {}).is_public = true ∧ include_public = true) := by
  constructor
  · intro hpub hmem
    rcases mem_get_user_accessible_files_iff.mp hmem with ⟨_, _, hacc⟩
    rw [doc_accessible] at hacc
    simp [hu, hpub] at hacc
  · intro hmem
    rcases mem_get_user_accessible_files_iff.mp hmem with ⟨_, _, hacc⟩
    rw [doc_accessible] at hacc
    simp [hu] at hacc
    exact ⟨hacc.2.1, hacc.2.2⟩

/-- Closed instance of C1: a guest is denied a private document that
carries share and role grants. -/
theorem c1_unauthenticated_exclusion_witness :
    ("d1", docPrivateShared) ∉ get_user_accessible_files jpNone [("d1", docPrivateShared)]
      guestUser Option.none true true Permission.view Option.none :=
  (c1_unauthenticated_exclusion jpNone [("d1", docPrivateShared)] guestUser Option.none
    true true Permission.view Option.none "d1" docPrivateShared rfl rfl).1 rfl

/-- C2: ownership supremacy — an authenticated caller with a non-empty
user id receives every PROCESSED document passing the filter gates whose
resolved owner or `uploaded_by` equals their id, for any required
permission and regardless of share/role/public settings. -/
theorem c2_ownership_supremacy (jp : String → Option PyVal)
    (storage : List (String × DocProcessingStatus)) (current_user : CurrentUser)
    (project_id : Option String) (include_shared include_public : Bool)
    (required_permission : Permission) (filters : Option AccessFilters)
    (doc_id : String) (doc : DocProcessingStatus)
    (hu : current_user.is_authenticated = true)
    (huid : strTruthy current_user.user_id = true)
    (hmem : (doc_id, doc) ∈ storage)
    (hs : doc.status = DocStatus.processed)
    (hfil : metadata_matches_filters jp (doc.metadata.getD {})
      (resolve_filters project_id filters) = true)
    (hfn : filename_gate (resolve_filters project_id filters) doc = true)
    (hown : metadata_owner (doc.metadata.getD {}) = current_user.user_id ∨
      (doc.metadata.getD {}).uploaded_by = current_user.user_id) :
    (doc_id, doc) ∈ get_user_accessible_files jp storage current_user project_id
      include_shared include_public required_permission filters := by
  refine mem_get_user_accessible_files_iff.mpr ⟨hmem, hs, ?_⟩
  rw [doc_accessible]
  simp only [hu, hfil, hfn, if_true, Bool.true_and, Bool.and_true]
  rcases hown with h | h
  · have ho : is_owner_check current_user (doc.metadata.getD {}) = true := by
      rw [is_owner_check, h]
      simp [huid]
    simp [auth_has_access, ho]
  · have ho : is_uploader_check current_user (doc.metadata.getD {}) = true := by
      rw [is_uploader_check, h]
      simp [huid]
    simp [auth_has_access, ho]

/-- Closed instance of C2: alice gets edit access to her own document
even with sharing and public inclusion disabled. -/
theorem c2_ownership_supremacy_witness :
    ("d1", docOwnedByAlice) ∈ get_user_accessible_files jpNone [("d1", docOwnedByAlice)]
      aliceUser Option.none false false Permission.edit Option.none :=
  c2_ownership_supremacy jpNone [("d1", docOwnedByAlice)] aliceUser Option.none false false
    Permission.edit Option.none "d1" docOwnedByAlice rfl rfl (by simp) rfl rfl rfl
    (Or.inl rfl)

/-- C3: for an authenticated caller whose only possible grant on a
gate-passing PROCESSED public document is the public flag, requesting
edit excludes the document even with `include_public` enabled, while
requesting view includes it. -/
theorem c3_public_view_only (jp : String → Option PyVal)
    (storage : List (String × DocProcessingStatus)) (current_user : CurrentUser)
    (project_id : Option String) (include_shared : Bool)
    (filters : Option AccessFilters) (doc_id : String) (doc : DocProcessingStatus)
    (hu : current_user.is_authenticated = true)
    (hmem : (doc_id, doc) ∈ storage)
    (hs : doc.status = DocStatus.processed)
    (hfil : metadata_matches_filters jp (doc.metadata.getD {})
      (resolve_filters project_id filters) = true)
    (hfn : filename_gate (resolve_filters project_id filters) doc = true)
    (hno : is_owner_check current_user (doc.metadata.getD {}) = false)
    (hnu : is_uploader_check current_user (doc.metadata.getD {}) = false)
    (hshare : ∀ e ∈ metadata_share_entries jp (doc.metadata.getD {}),
      ¬(e.matches_user current_user.user_id current_user.roles = true ∧
        e.allows Permission.edit = true))
    (hrole : has_role_access_check current_user (doc.metadata.getD {}) = false)
    (hpub : (doc.metadata.getD {}).is_public = true) :
    (doc_id, doc) ∉ get_user_accessible_files jp storage current_user project_id
      include_shared true Permission.edit filters ∧
    (doc_id, doc) ∈ get_user_accessible_files jp storage current_user project_id
      include_shared true Permission.view filters := by
  have hany : (metadata_share_entries jp (doc.metadata.getD {})).any (fun e =>
      e.matches_user current_user.user_id current_user.roles &&
        e.allows Permission.edit) = false := by
    cases hc : (metadata_share_entries jp (doc.metadata.getD {})).any (fun e =>
        e.matches_user current_user.user_id current_user.roles &&
          e.allows Permission.edit) with
    | false => rfl
    | true =>
        exfalso
        rcases List.any_eq_true.mp hc with ⟨e, he, hpe⟩
        rw [Bool.and_eq_true] at hpe
        exact hshare e he hpe
  constructor
  · intro hmem'
    rcases mem_get_user_accessible_files_iff.mp hmem' with ⟨_, _, hacc⟩
    rw [doc_accessible] at hacc
    rw [auth_has_access] at hacc
    simp [hu, hfil, hfn, hno, hnu, hrole, hany] at hacc
  · refine mem_get_user_accessible_files_iff.mpr ⟨hmem, hs, ?_⟩
    rw [doc_accessible, auth_has_access]
    simp [hu, hfil, hfn, hpub]

/-- Closed instance of C3: bob cannot edit alice's purely public
document but can view it. -/
theorem c3_public_view_only_witness :
    ("d1", docPublicOnly) ∉ get_user_accessible_files jpNone [("d1", docPublicOnly)]
      bobUser Option.none true true Permission.edit Option.none ∧
    ("d1", docPublicOnly) ∈ get_user_accessible_files jpNone [("d1", docPublicOnly)]
      bobUser Option.none true true Permission.view Option.none := by
  refine c3_public_view_only jpNone [("d1", docPublicOnly)] bobUser Option.none true
    Option.none "d1" docPublicOnly rfl (by simp) rfl rfl rfl rfl rfl ?_ rfl rfl
  intro e he
  have h0 : metadata_share_entries jpNone (docPublicOnly.metadata.getD {}) = [] := rfl
  rw [h0] at he
  cases he

/-- C7: the filter gate is a hard exclude — a project, owner, tag, or
filename mismatch excludes the document for every identity, permission
and include-flag combination, before any permission logic. -/
theorem c7_filter_gate_hard_exclude (jp : String → Option PyVal)
    (storage : List (String × DocProcessingStatus)) (current_user : CurrentUser)
    (project_id : Option String) (include_shared include_public : Bool)
    (required_permission : Permission) (filters : Option AccessFilters)
    (doc_id : String) (doc : DocProcessingStatus)
    (hbad :
      (strTruthy (resolve_filters project_id filters).project_id = true ∧
        (doc.metadata.getD {}).project_id ≠ (resolve_filters project_id filters).project_id) ∨
      (strTruthy (resolve_filters project_id filters).owner = true ∧
        metadata_owner (doc.metadata.getD {}) ≠ (resolve_filters project_id filters).owner) ∨
      (∃ t ∈ (resolve_filters project_id filters).tags,
        t ∉ metadata_tags jp (doc.metadata.getD {})) ∨
      (∃ fn, (resolve_filters project_id filters).filename = some fn ∧ fn ≠ "" ∧
        ∀ fp, doc_file_path doc = some fp → py_in fn fp = false)) :
    (doc_id, doc) ∉ get_user_accessible_files jp storage current_user project_id
      include_shared include_public required_permission filters := by
  intro hmem
  rcases mem_get_user_accessible_files_iff.mp hmem with ⟨_, _, hacc⟩
  rw [doc_accessible] at hacc
  simp only [Bool.and_eq_true] at hacc
  obtain ⟨⟨hmmf, hfg⟩, hrest⟩ := hacc
  rcases hbad with ⟨hset, hne⟩ | ⟨hset, hne⟩ | ⟨t, ht, hnt⟩ | ⟨fn, hfn, hfne, hnfp⟩
  · have hc : (strTruthy (resolve_filters project_id filters).project_id &&
        !((doc.metadata.getD {}).project_id ==
          (resolve_filters project_id filters).project_id)) = true := by
      simp [hset, hne]
    simp [metadata_matches_filters, hc] at hmmf
  · have hc : (strTruthy (resolve_filters project_id filters).owner &&
        !(metadata_owner (doc.metadata.getD {}) ==
          (resolve_filters project_id filters).owner)) = true := by
      simp [hset, hne]
    simp [metadata_matches_filters, hc] at hmmf
  · have hall : (resolve_filters project_id filters).tags.all (fun tf =>
        (metadata_tags jp (doc.metadata.getD {})).any (fun dt => dt == tf)) = false := by
      rw [List.all_eq_false]
      refine ⟨t, ht, ?_⟩
      intro hanyt
      rcases List.any_eq_true.mp hanyt with ⟨dt, hdt, hdteq⟩
      exact hnt (beq_iff_eq.mp hdteq ▸ hdt)
    simp [metadata_matches_filters, hall] at hmmf
  · unfold filename_gate at hfg
    rw [hfn] at hfg
    simp [hfne] at hfg
    cases hfp : doc_file_path doc with
    | none =>
        rw [hfp] at hfg
        simp at hfg
    | some fp =>
        rw [hfp] at hfg
        simp at hfg
        exact absurd hfg.2 (by simp [hnfp fp hfp])

/-- Closed instance of C7: a filter requiring tag dept=eng excludes a
dept=sales document even for its owner with every grant available. -/
theorem c7_filter_gate_hard_exclude_witness :
    ("d1", docDeptSales) ∉ get_user_accessible_files jpNone [("d1", docDeptSales)]
      aliceUser Option.none true true Permission.view
      (some { tags := [⟨"dept", "eng"⟩] }) :=
  c7_filter_gate_hard_exclude jpNone [("d1", docDeptSales)] aliceUser Option.none true true
    Permission.view (some { tags := [⟨"dept", "eng"⟩] }) "d1" docDeptSales
    (Or.inr (Or.inr (Or.inl ⟨⟨"dept", "eng"⟩, by decide, by decide⟩)))

/-- C8: `metadata_share_entries` merges the normalized `share_parsed`
and `share` entries with the legacy `access_control` shape — one edit
entry for the owner, a view entry per viewer, an edit entry per
editor — deduplicated by the `(target_kind, permission, identifier)`
triple in first-seen order; on
`{access_control: {owner: alice, viewers: [bob]}}` it yields exactly
`[user:edit:alice, user:view:bob]`. -/
theorem c8_legacy_access_control_merge (jp : String → Option PyVal) (metadata : Metadata)
    (ac : AccessControlDict) (hac : metadata.access_control = some ac) :
    ((metadata_share_entries jp metadata).map shareKey).Nodup ∧
    List.Sublist (metadata_share_entries jp metadata)
      ((if pyTruthy metadata.share_parsed then normalize_share_items jp metadata.share_parsed
        else [])
        ++ (if pyTruthy metadata.share then normalize_share_items jp metadata.share else [])
        ++ legacy_ac_entries metadata.access_control) ∧
    (∀ o, ac.owner = some o → o ≠ "" →
      ∃ e ∈ metadata_share_entries jp metadata, e = ⟨"user", Permission.edit, o⟩) ∧
    (∀ v ∈ ac.viewers,
      ∃ e ∈ metadata_share_entries jp metadata, e = ⟨"user", Permission.view, v⟩) ∧
    (∀ v ∈ ac.editors,
      ∃ e ∈ metadata_share_entries jp metadata, e = ⟨"user", Permission.edit, v⟩) ∧
    (pyTruthy metadata.share_parsed = true →
      ∀ e ∈ normalize_share_items jp metadata.share_parsed,
        ∃ e2 ∈ metadata_share_entries jp metadata, e2 = e) ∧
    (pyTruthy metadata.share = true →
      ∀ e ∈ normalize_share_items jp metadata.share,
        ∃ e2 ∈ metadata_share_entries jp metadata, e2 = e) ∧
    metadata_share_entries jp
        { access_control := some { owner := some "alice", viewers := ["bob"] } } =
      [⟨"user", Permission.edit, "alice"⟩, ⟨"user", Permission.view, "bob"⟩] := by
  have hfind : ∀ target : ShareEntry,
      target ∈ ((if pyTruthy metadata.share_parsed then
          normalize_share_items jp metadata.share_parsed else [])
        ++ (if pyTruthy metadata.share then normalize_share_items jp metadata.share else [])
        ++ legacy_ac_entries metadata.access_control) →
      ∃ e ∈ metadata_share_entries jp metadata, e = target := by
    intro target hmem
    rcases exists_key_mem_dedupKeepFirst shareKey ⟨target, hmem, rfl⟩ with ⟨e, he, hk⟩
    exact ⟨e, by rw [metadata_share_entries]; exact he, shareKey_inj hk⟩
  refine ⟨?_, ?_, ?_, ?_, ?_, ?_, ?_, by rfl⟩
  · rw [metadata_share_entries, List.nodup_map_iff_inj_on]
    · intro a _ b _ hk
      exact shareKey_inj hk
    · refine List.Pairwise.imp ?_ (pairwise_keys_dedupKeepFirst _ _)
      intro a b hk heq
      exact hk (by rw [heq])
  · rw [metadata_share_entries]
    exact dedupKeepFirst_sublist _ _
  · intro o ho hne
    refine hfind ⟨"user", Permission.edit, o⟩ ?_
    rw [hac]
    refine List.mem_append_right _ ?_
    rw [legacy_ac_entries]
    refine List.mem_append_left _ (List.mem_append_left _ ?_)
    rw [ho, legacy_owner_entries, if_pos hne]
    exact List.mem_singleton.mpr rfl
  · intro v hv
    refine hfind ⟨"user", Permission.view, v⟩ ?_
    rw [hac]
    refine List.mem_append_right _ ?_
    rw [legacy_ac_entries]
    refine List.mem_append_left _ (List.mem_append_right _ ?_)
    exact List.mem_map_of_mem _ hv
  · intro v hv
    refine hfind ⟨"user", Permission.edit, v⟩ ?_
    rw [hac]
    refine List.mem_append_right _ ?_
    rw [legacy_ac_entries]
    refine List.mem_append_right _ ?_
    exact List.mem_map_of_mem _ hv
  · intro htr e he
    refine hfind e ?_
    refine List.mem_append_left _ (List.mem_append_left _ ?_)
    rw [if_pos htr]
    exact he
  · intro htr e he
    refine hfind e ?_
    refine List.mem_append_left _ (List.mem_append_right _ ?_)
    rw [if_pos htr]
    exact he

/-- Closed instance of C8 on the legacy scenario metadata. -/
theorem c8_legacy_access_control_merge_witness :
    ∃ e ∈ metadata_share_entries jpNone
        { access_control := some { owner := some "alice", viewers := ["bob"] } },
      e = ⟨"user", Permission.view, "bob"⟩ :=
  (c8_legacy_access_control_merge jpNone
    { access_control := some { owner := some "alice", viewers := ["bob"] } }
    { owner := some "alice", viewers := ["bob"] } rfl).2.2.2.1 "bob" (by decide)

/-- C9 (amended): `filter_entities_by_access` keeps an entity iff some
`GRAPH_FIELD_SEP`-separated segment of its `file_path` contains, as a
substring, the *non-empty* `file_path` of at least one accessible
document (documents with a missing or empty path are skipped). -/
theorem c9_filter_entities_provenance (entities : List Entity)
    (accessible_files : List (String × DocProcessingStatus)) (e : Entity) :
    e ∈ filter_entities_by_access entities accessible_files ↔
      e ∈ entities ∧ ∃ p ∈ accessible_files, ∃ fp, doc_file_path p.2 = some fp ∧ fp ≠ "" ∧
        ∃ seg ∈ py_split e.file_path GRAPH_FIELD_SEP, py_in fp seg = true := by
  have hpred : ∀ p : String × DocProcessingStatus,
      (match doc_file_path p.2 with
       | Option.none => false
       | some fp =>
           fp ≠ "" && (py_split e.file_path GRAPH_FIELD_SEP).any (fun seg => py_in fp seg)) =
        true ↔
      ∃ fp, doc_file_path p.2 = some fp ∧ fp ≠ "" ∧
        ∃ seg ∈ py_split e.file_path GRAPH_FIELD_SEP, py_in fp seg = true := by
    intro p
    cases h : doc_file_path p.2 with
    | none => simp [h]
    | some fp => simp [h, List.any_eq_true, and_assoc]
  simp only [filter_entities_by_access, List.mem_filter, List.any_eq_true, hpred]

/-- C9 counterexample: with an accessible document whose `file_path` is
the empty string, the claimed keep-rule (some segment contains the
document's `file_path` — and every string contains `""`) says the
entity is kept, yet `filter_entities_by_access` drops it. -/
theorem c9_counterexample_empty_path :
    (∃ p ∈ [("d1", ({ status := DocStatus.processed, file_path := some "" } :
          DocProcessingStatus))],
      ∃ fp, doc_file_path p.2 = some fp ∧
        ∃ seg ∈ py_split (Entity.mk "x").file_path GRAPH_FIELD_SEP, py_in fp seg = true) ∧
    Entity.mk "x" ∉ filter_entities_by_access [Entity.mk "x"]
      [("d1", { status := DocStatus.processed, file_path := some "" })] := by
  constructor
  · exact ⟨("d1", { status := DocStatus.processed, file_path := some "" }),
      List.mem_singleton.mpr rfl, "", rfl, "x", by decide, by decide⟩
  · decide
